import Mathlib

/-!
Shallow embedding of `src/expense_tracker.py` (Personal Expense Tracker).

Python strings are modelled as `List Char`; Python floats as `ℚ` (finite
decimal values; binary representation error, `inf` and `nan` are outside the
model).  Rounding (`round(x, 2)` and the `:.2f` format) is modelled as
round-half-to-even at two fractional digits, the tie rule CPython uses for
decimal values.  Fallible operations return `Option`.
-/

namespace ExpenseTracker

abbrev Str := List Char

/-- Decimal digit test, `'0' ≤ c ≤ '9'` (the ASCII digits matched by the
`\d` groups of CPython `_strptime` patterns and by `float()` literals;
non-ASCII Unicode digits are outside the model). -/
def isDigitCh (c : Char) : Bool :=
  48 ≤ c.toNat && c.toNat ≤ 57

/-- Numeric value of a digit character. -/
def digitVal (c : Char) : ℕ := c.toNat - 48

/-- The ASCII whitespace stripped by Python `str.strip()`: space, tab,
newline, carriage return, vertical tab, form feed (by code point). -/
def isSpaceCh (c : Char) : Bool :=
  c.toNat = 32 || c.toNat = 9 || c.toNat = 10 || c.toNat = 13 ||
    c.toNat = 11 || c.toNat = 12

/-- Python `s.strip()`: drop whitespace from both ends. -/
def pyStrip (l : Str) : Str :=
  ((l.dropWhile isSpaceCh).reverse.dropWhile isSpaceCh).reverse

/-- Value of a digit string read most-significant first (`int("...")` on a
digit-only string). -/
def digitsVal (l : Str) : ℕ :=
  l.foldl (fun a c => a * 10 + digitVal c) 0

/-- Consume one optional leading sign; returns (isNegative, rest). -/
def pySign : Str → Bool × Str
  | [] => (false, [])
  | c :: rest =>
    if c = '-' then (true, rest)
    else if c = '+' then (false, rest)
    else (false, c :: rest)

/-- The rational value of a signed decimal literal: sign, integer digits,
fraction digits, exponent (sign and magnitude).  Built with `Rat.divInt`
over integer arithmetic so that concrete instances reduce inside the
kernel; `pyFloatDecimal_eq` below restates it with field operations. -/
def pyFloatDecimal (neg : Bool) (ip fp : Str) (eneg : Bool) (emag : ℕ) : ℚ :=
  let mnum : ℤ := (digitsVal ip : ℤ) * 10 ^ fp.length + (digitsVal fp : ℤ)
  let snum : ℤ := cond neg (-mnum) mnum
  cond eneg (Rat.divInt snum ((10 : ℤ) ^ fp.length * (10 : ℤ) ^ emag))
    (Rat.divInt (snum * (10 : ℤ) ^ emag) ((10 : ℤ) ^ fp.length))

/-- Core of Python `float()` on an already-stripped string: optional sign,
then `digits [. digits] | . digits`, then an optional exponent part.
Returns `none` where `float()` raises `ValueError`.  (Underscore separators
and the `inf`/`nan` words are outside the model.) -/
def pyFloatCore (l : Str) : Option ℚ :=
  let s := pySign l
  let ip := s.2.takeWhile isDigitCh
  let l2 := s.2.dropWhile isDigitCh
  let fpl3 : Str × Str :=
    match l2 with
    | '.' :: r => (r.takeWhile isDigitCh, r.dropWhile isDigitCh)
    | _ => ([], l2)
  let fp := fpl3.1
  let l3 := fpl3.2
  if ip.isEmpty && fp.isEmpty then Option.none
  else
    match l3 with
    | [] => some (pyFloatDecimal s.1 ip fp false 0)
    | 'e' :: r =>
      let es := pySign r
      let ed := es.2.takeWhile isDigitCh
      let r2 := es.2.dropWhile isDigitCh
      if ed.isEmpty || !r2.isEmpty then Option.none
      else some (pyFloatDecimal s.1 ip fp es.1 (digitsVal ed))
    | 'E' :: r =>
      let es := pySign r
      let ed := es.2.takeWhile isDigitCh
      let r2 := es.2.dropWhile isDigitCh
      if ed.isEmpty || !r2.isEmpty then Option.none
      else some (pyFloatDecimal s.1 ip fp es.1 (digitsVal ed))
    | _ => Option.none

/-- Python `float()` on a string: surrounding whitespace is allowed. -/
def pyFloat (l : Str) : Option ℚ := pyFloatCore (pyStrip l)

/-- Round a rational to the nearest integer, ties to even (CPython's tie
rule for `round` and `format` on exact decimal values).  The fractional
part `q - ⌊q⌋` equals `(q.num - ⌊q⌋ * q.den) / q.den` with `q.den > 0`, so
it is compared against `1/2` by comparing twice its numerator with `q.den`
(written that way so that concrete instances kernel-reduce). -/
def roundHalfEven (q : ℚ) : ℤ :=
  let n := ⌊q⌋
  let r := q.num - n * (q.den : ℤ)
  if 2 * r < (q.den : ℤ) then n
  else if (q.den : ℤ) < 2 * r then n + 1
  else if n % 2 = 0 then n else n + 1

/-- The value `q * 100`, written on the numerator so that it kernel-reduces
(`scaled100_eq` below). -/
def scaled100 (q : ℚ) : ℚ := Rat.divInt (q.num * 100) (q.den : ℤ)

/-- Python `round(q, 2)`. -/
def round2 (q : ℚ) : ℚ := Rat.divInt (roundHalfEven (scaled100 q)) 100

/-- Addition on ℚ written on numerators and denominators so that concrete
instances kernel-reduce; equal to `+` by `qadd_eq`. -/
def qadd (a b : ℚ) : ℚ :=
  Rat.divInt (a.num * (b.den : ℤ) + b.num * (a.den : ℤ)) ((a.den : ℤ) * (b.den : ℤ))

/-- Subtraction on ℚ written on numerators and denominators so that
concrete instances kernel-reduce; equal to `-` by `qsub_eq`. -/
def qsub (a b : ℚ) : ℚ :=
  Rat.divInt (a.num * (b.den : ℤ) - b.num * (a.den : ℤ)) ((a.den : ℤ) * (b.den : ℤ))

/-- Digit character for a value `0..9`. -/
def digitChar : ℕ → Char
  | 0 => '0' | 1 => '1' | 2 => '2' | 3 => '3' | 4 => '4'
  | 5 => '5' | 6 => '6' | 7 => '7' | 8 => '8' | _ => '9'

/-- Decimal digits of a natural number, most significant first; structural
recursion on a fuel argument so that the kernel can reduce it (`fuel` is
always large enough when called through `natToDigits`). -/
def natToDigitsAux : ℕ → ℕ → Str
  | 0, _ => []
  | fuel + 1, n =>
    if n < 10 then [digitChar n]
    else natToDigitsAux fuel (n / 10) ++ [digitChar (n % 10)]

/-- Decimal digits of a natural number, most significant first. -/
def natToDigits (n : ℕ) : Str := natToDigitsAux (n + 1) n

/-- Exactly two digits for a value `0..99`. -/
def twoDigits (r : ℕ) : Str := [digitChar (r / 10), digitChar (r % 10)]

/-- Python `f"{q:.2f}"`: the value rounded to 2 fractional digits, written
with exactly two digits after the decimal point.  (For negative values that
round to zero Python prints `-0.00`; the model prints `0.00`, a case no
modelled code path reaches with claim-relevant inputs.) -/
def format2 (q : ℚ) : Str :=
  let n := roundHalfEven (scaled100 q)
  let m := n.natAbs
  (if n < 0 then ['-'] else []) ++ natToDigits (m / 100) ++ '.' :: twoDigits (m % 100)

/-! ## Date validation (`is_valid_date`, lines 10-15 of the source)

`datetime.strptime(date_str, "%Y-%m-%d")` compiles the format to the regex
`(\d\d\d\d)-(1[0-2]|0[1-9]|[1-9])-(3[01]|[12]\d|0[1-9]|[1-9])`, requires it
to consume the whole string, and then builds `datetime(Y, M, D)`, which
raises `ValueError` unless `1 ≤ Y` and `D` is at most the length of month
`M` in year `Y`.  Note the month and day groups also accept single digits
(CPython does not require zero padding).  Splitting on `'-'` is equivalent
to the regex match because the three groups match only digit characters. -/

/-- Split a string on `'-'` separators (every occurrence). -/
def splitDash : Str → List Str
  | [] => [[]]
  | c :: rest =>
    if c = '-' then [] :: splitDash rest
    else
      match splitDash rest with
      | [] => [[c]]
      | p :: ps => (c :: p) :: ps

/-- Rejoin the parts produced by `splitDash` (its left inverse). -/
def joinDash : List Str → Str
  | [] => []
  | [p] => p
  | p :: q :: ps => p ++ '-' :: joinDash (q :: ps)

/-- The strings matched by the `%m` group `1[0-2]|0[1-9]|[1-9]`:
one or two digits with value 1..12. -/
def monthToken (m : Str) : Bool :=
  m.all isDigitCh && (m.length = 1 || m.length = 2) &&
    (1 ≤ digitsVal m && digitsVal m ≤ 12)

/-- The strings matched by the `%d` group `3[01]|[12]\d|0[1-9]|[1-9]`:
one or two digits with value 1..31. -/
def dayToken (d : Str) : Bool :=
  d.all isDigitCh && (d.length = 1 || d.length = 2) &&
    (1 ≤ digitsVal d && digitsVal d ≤ 31)

/-- Gregorian leap-year rule, as in `datetime`. -/
def isLeapYear (y : ℕ) : Bool :=
  (y % 4 = 0 && y % 100 ≠ 0) || y % 400 = 0

/-- Number of days in month `m` of year `y` (for `1 ≤ m ≤ 12`). -/
def daysInMonth (y m : ℕ) : ℕ :=
  if m = 2 then (if isLeapYear y then 29 else 28)
  else if m = 4 || m = 6 || m = 9 || m = 11 then 30
  else 31

/-- Function `is_valid_date` from the source: `strptime(s, "%Y-%m-%d")` succeeds. -/
def is_valid_date (s : Str) : Bool :=
  match splitDash s with
  | [ys, ms, ds] =>
    decide (ys.length = 4) && ys.all isDigitCh && monthToken ms && dayToken ds &&
      decide (1 ≤ digitsVal ys) &&
      decide (digitsVal ds ≤ daysInMonth (digitsVal ys) (digitsVal ms))
  | _ => false

/-! ## Data model

A Python expense record is a dict with keys `date`, `category`, `amount`,
`description`.  Field values are modelled by `Val`: `pynone` is Python
`None` (a record whose dict is missing a key behaves, in every modelled
code path, exactly like one holding `None`, since both only ever fail the
completeness check); `emptyList` is the empty list `[]`; `otherObj` stands
for any other non-string, non-numeric, non-None value. -/

inductive Val where
  | pynone : Val
  | str : Str → Val
  | num : ℚ → Val
  | emptyList : Val
  | otherObj : Val
deriving DecidableEq

structure Expense where
  date : Val
  category : Val
  amount : Val
  description : Val
deriving DecidableEq

/-- Python `v in (None, "", [])` for a field value. -/
def isEmptySentinel : Val → Bool
  | .pynone => true
  | .str s => s.isEmpty
  | .emptyList => true
  | _ => false

/-- Function `is_complete_expense` from the source (lines 17-21). -/
def is_complete_expense (e : Expense) : Bool :=
  !isEmptySentinel e.date && !isEmptySentinel e.category &&
    !isEmptySentinel e.amount && !isEmptySentinel e.description

/-- Python `float(v)` on a field value: numbers pass through, strings are
parsed (`ValueError` on failure), anything else raises `TypeError`. -/
def floatOfVal : Val → Option ℚ
  | .num q => some q
  | .str s => pyFloat s
  | _ => Option.none

/-! ## `add_expense` (source lines 24-57)

The four `input()` strings are the function's inputs; each is stripped as
in the source.  A failed validation step prints a message and returns
without touching the list; success appends exactly one record. -/

inductive AddResult where
  | rejected : AddResult
  | added : Expense → AddResult
deriving DecidableEq

def add_expense (dateRaw categoryRaw amountRaw descriptionRaw : Str) : AddResult :=
  let date := pyStrip dateRaw
  if !is_valid_date date then .rejected
  else
    let category := pyStrip categoryRaw
    if category.isEmpty then .rejected
    else
      match pyFloat (pyStrip amountRaw) with
      | Option.none => .rejected
      | some amount =>
        if amount ≤ 0 then .rejected
        else
          let description := pyStrip descriptionRaw
          if description.isEmpty then .rejected
          else .added ⟨.str date, .str category, .num (round2 amount), .str description⟩

/-- The expense list after a call to `add_expense` on list `es`. -/
def add_expense_state (es : List Expense) (d c a dsc : Str) : List Expense :=
  match add_expense d c a dsc with
  | .rejected => es
  | .added e => es ++ [e]

/-! ## `view_expenses` (source lines 60-81)

The loop only reads the list; the model threads the list value through the
iteration (`state`) and returns it with the number of entries shown. -/

def view_loop (state : List Expense) : List Expense → ℕ → List Expense × ℕ
  | [], shown => (state, shown)
  | e :: rest, shown =>
    if is_complete_expense e then view_loop state rest (shown + 1)
    else view_loop state rest shown

def view_expenses (es : List Expense) : List Expense × ℕ :=
  if es.isEmpty then (es, 0) else view_loop es es 0

/-! ## `total_expenses` (source lines 84-92) -/

def total_loop (state : List Expense) : List Expense → ℚ → List Expense × ℚ
  | [], acc => (state, acc)
  | e :: rest, acc =>
    if is_complete_expense e then
      match floatOfVal e.amount with
      | some v => total_loop state rest (qadd acc v)
      | Option.none => total_loop state rest acc
    else total_loop state rest acc

def total_expenses_st (es : List Expense) : List Expense × ℚ :=
  match total_loop es es 0 with
  | (s, t) => (s, round2 t)

def total_expenses (es : List Expense) : ℚ := (total_expenses_st es).2

/-! ## `set_budget` and `track_budget` (source lines 95-124) -/

/-- Function `set_budget`: parse the prompted string; `None` on invalid or
non-positive input, otherwise the value rounded to 2 decimals. -/
def set_budget (raw : Str) : Option ℚ :=
  match pyFloat (pyStrip raw) with
  | Option.none => Option.none
  | some b => if b ≤ 0 then Option.none else some (round2 b)

inductive Verdict where
  | exceeded : Verdict
  | within : ℚ → Verdict
deriving DecidableEq

/-- The comparison at source lines 119-123: `spent > budget` warns of an
exceeded budget, otherwise the remaining amount is printed. -/
def budget_verdict (spent budget : ℚ) : Verdict :=
  if budget < spent then .exceeded
  else .within (round2 (qsub budget spent))

/-- Function `track_budget`: resolves the budget (prompting via `set_budget` when
unset, with the raw reply `raw`), then compares the ledger total against
it.  Returns the list value, the returned budget and the verdict printed
(`none` when the function returned early because no budget was set). -/
def track_budget (es : List Expense) (budget : Option ℚ) (raw : Str) :
    List Expense × Option ℚ × Option Verdict :=
  match budget with
  | Option.none =>
    match set_budget raw with
    | Option.none => (es, Option.none, Option.none)
    | some b =>
      match total_expenses_st es with
      | (s, spent) => (s, some b, some (budget_verdict spent b))
  | some b =>
    match total_expenses_st es with
    | (s, spent) => (s, some b, some (budget_verdict spent b))

/-! ## Persistence (source lines 127-180)

The CSV text layer (`csv.DictWriter` / `csv.DictReader` with minimal
quoting) is treated as an external codec that is the identity at the level
of rows of fields: a file is a `List Row` (header row first), a `Row` a
list of field strings.  A nonexistent file is `Option.none`. -/

abbrev Row := List Str

def strDate : Str := "date".toList

def strCategory : Str := "category".toList

def strAmount : Str := "amount".toList

def strDescription : Str := "description".toList

def CSV_HEADERS : Row := [strDate, strCategory, strAmount, strDescription]

/-- One data row written by `save_expenses` for a (complete) record:
`writer.writerow` stringifies the text fields and formats
`float(exp["amount"])` with 2 fractional digits.  `Option.none` models the
uncaught exception when `float` of the amount raises; a text field held as
a non-string Python object (which `csv` would stringify) is outside the
model and also maps to `Option.none` — no claim exercises that case. -/
def serialize_expense (e : Expense) : Option Row :=
  match e.date, e.category, e.amount, e.description with
  | .str d, .str c, a, .str dsc =>
    match floatOfVal a with
    | some q => some [d, c, format2 q, dsc]
    | Option.none => Option.none
  | _, _, _, _ => Option.none

/-- The loop of `save_expenses`: incomplete records are skipped, the rest
serialized in order; `Option.none` when serialization raises. -/
def save_loop (state : List Expense) : List Expense → List Expense × Option (List Row)
  | [] => (state, some [])
  | e :: rest =>
    if is_complete_expense e then
      match serialize_expense e with
      | Option.none => (state, Option.none)
      | some row =>
        match save_loop state rest with
        | (s, Option.none) => (s, Option.none)
        | (s, some rows) => (s, some (row :: rows))
    else save_loop state rest

/-- Function `save_expenses` on an openable destination: the list value after the
call and the file content written (header row then one row per complete
record). -/
def save_expenses_st (es : List Expense) : List Expense × Option (List Row) :=
  match save_loop es es with
  | (s, Option.none) => (s, Option.none)
  | (s, some rows) => (s, some (CSV_HEADERS :: rows))

def save_expenses (es : List Expense) : Option (List Row) := (save_expenses_st es).2

/-- Outcome of a `save_expenses` call when the destination may refuse to
open.  `handledIOError` is the outcome the specification describes (error
caught, message printed, normal return); the source never produces it —
`open` failures propagate because `save_expenses` has no `try`/`except`,
and serialization errors likewise propagate (`raisedValueError`). -/
inductive SaveOutcome where
  | ok : List Row → SaveOutcome
  | handledIOError : SaveOutcome
  | raisedIOError : SaveOutcome
  | raisedValueError : SaveOutcome
deriving DecidableEq

/-- Function `save_expenses` with the environment made explicit: `canOpen` is
whether `open(filename, "w")` succeeds. -/
def save_expenses_io (es : List Expense) (canOpen : Bool) : SaveOutcome :=
  if !canOpen then .raisedIOError
  else
    match save_expenses es with
    | some rows => .ok rows
    | Option.none => .raisedValueError

/-- Column lookup of `csv.DictReader` followed by `or ""`:
`dict(zip(fieldnames, row))` keeps the last occurrence of a duplicated
field name, missing cells get the restval `None`, and `row.get(k)` of an
unmapped name is `None`; `None or ""` and `"" or ""` are both `""`. -/
def lastIdxOf (name : Str) : List Str → Option ℕ
  | [] => Option.none
  | x :: xs =>
    match lastIdxOf name xs with
    | some i => some (i + 1)
    | Option.none => if x = name then some 0 else Option.none

def colGet (header row : List Str) (name : Str) : Str :=
  match lastIdxOf name header with
  | Option.none => []
  | some i => row.getD i []

/-- The body of the row loop of `load_expenses` (source lines 154-176):
strip the four columns, reject the row unless all four are non-empty, the
date is valid and the amount parses; positivity is not re-checked. -/
def parse_row (header row : Row) : Option Expense :=
  let date := pyStrip (colGet header row strDate)
  let category := pyStrip (colGet header row strCategory)
  let amountStr := pyStrip (colGet header row strAmount)
  let description := pyStrip (colGet header row strDescription)
  if date.isEmpty || category.isEmpty || amountStr.isEmpty || description.isEmpty then
    Option.none
  else if !is_valid_date date then Option.none
  else
    match pyFloat amountStr with
    | Option.none => Option.none
    | some amount =>
      some ⟨.str date, .str category, .num (round2 amount), .str description⟩

/-- The row loop: rejected rows are skipped and parsing continues. -/
def load_rows (header : Row) : List Row → List Expense
  | [] => []
  | r :: rest =>
    match parse_row header r with
    | some e => e :: load_rows header rest
    | Option.none => load_rows header rest

/-- Function `load_expenses` with the read-failure point made explicit: `file` is
the rows of the source file (`Option.none` when it does not exist) and
`failAfter = some k` injects an exception after `k` data rows were
delivered (`open` or header-read failures are `k = 0`).  Returns the
records accumulated and whether the `except` branch printed its warning. -/
def load_expenses_io (file : Option (List Row)) (failAfter : Option ℕ) :
    List Expense × Bool :=
  match file with
  | Option.none => ([], false)
  | some [] => ([], false)
  | some (header :: data) =>
    match failAfter with
    | Option.none => (load_rows header data, false)
    | some k =>
      if k < data.length then (load_rows header (data.take k), true)
      else (load_rows header data, false)

/-- Function `load_expenses` when no read failure occurs. -/
def load_expenses (file : Option (List Row)) : List Expense :=
  (load_expenses_io file Option.none).1

/-! ## Specification-side definitions

These definitions follow the words of the specification (not the source);
they exist to state refinement claims against the source-derived
definitions above. -/

/-- Modelled from the spec's words for claim C2: `s` "matches the strict
`YYYY-MM-DD` format and denotes a real calendar date" — exactly four year
digits, two month digits, two day digits, dash separators, and a date that
`datetime` accepts (year at least 1, day within the month). -/
def strictISODate (s : Str) : Bool :=
  match s with
  | [y1, y2, y3, y4, c1, m1, m2, c2, d1, d2] =>
    c1 = '-' && c2 = '-' &&
      [y1, y2, y3, y4, m1, m2, d1, d2].all isDigitCh &&
      1 ≤ digitsVal [y1, y2, y3, y4] &&
      1 ≤ digitsVal [m1, m2] && digitsVal [m1, m2] ≤ 12 &&
      1 ≤ digitsVal [d1, d2] &&
      digitsVal [d1, d2] ≤ daysInMonth (digitsVal [y1, y2, y3, y4]) (digitsVal [m1, m2])
  | _ => false

/-- The date strings `strptime(s, "%Y-%m-%d")` accepts, stated as a
decomposition: exactly four year digits, one or two month digits (value
1..12), one or two day digits, dash separators, year at least 1, day
within the month. -/
def FlexValidDate (s : Str) : Prop :=
  ∃ ys ms ds : Str,
    s = ys ++ '-' :: (ms ++ '-' :: ds) ∧
    ys.length = 4 ∧ (∀ c ∈ ys, isDigitCh c = true) ∧ 1 ≤ digitsVal ys ∧
    (ms.length = 1 ∨ ms.length = 2) ∧ (∀ c ∈ ms, isDigitCh c = true) ∧
    1 ≤ digitsVal ms ∧ digitsVal ms ≤ 12 ∧
    (ds.length = 1 ∨ ds.length = 2) ∧ (∀ c ∈ ds, isDigitCh c = true) ∧
    1 ≤ digitsVal ds ∧ digitsVal ds ≤ daysInMonth (digitsVal ys) (digitsVal ms)

/-! ## Concrete inputs used by witnesses and counterexamples -/

/-- A complete record with positive amount whose category has a trailing
space: the save/load round trip strips it (claim C1). -/
def c1CexRecord : Expense :=
  ⟨.str "2024-03-01".toList, .str "Food ".toList, .num 5, .str "Lunch".toList⟩

/-- The record the C1 counterexample's round trip actually yields. -/
def c1CexLoaded : Expense :=
  ⟨.str "2024-03-01".toList, .str "Food".toList, .num 5, .str "Lunch".toList⟩

/-- A well-behaved complete record for the C1 witness. -/
def c1GoodRecord : Expense :=
  ⟨.str "2024-03-01".toList, .str "Food".toList, .num (mkRat 5999 1000), .str "Lunch".toList⟩

/-- An unpadded date string accepted by `strptime` (claim C2). -/
def c2CexDate : Str := "2024-2-9".toList

/-- A well-formed data row (spec §8 example). -/
def rowGood : Row :=
  ["2024-03-01".toList, "Food".toList, "12.50".toList, "Lunch with client".toList]

/-- A data row missing its category. -/
def rowNoCategory : Row :=
  ["2024-03-02".toList, "".toList, "3.00".toList, "Taxi".toList]

/-- A data row with a negative amount (positivity is not re-checked on
load). -/
def rowNegative : Row :=
  ["2024-03-03".toList, "Misc".toList, "-4.00".toList, "Refund".toList]

/-- The record `rowGood` parses to. -/
def rowGoodRecord : Expense :=
  ⟨.str "2024-03-01".toList, .str "Food".toList, .num (mkRat 1250 100),
    .str "Lunch with client".toList⟩

/-! ## Arithmetic lemmas -/

theorem pyFloatDecimal_eq (neg : Bool) (ip fp : Str) (eneg : Bool) (emag : ℕ) :
    pyFloatDecimal neg ip fp eneg emag =
      (cond neg (-1) 1 : ℚ) *
        ((digitsVal ip : ℚ) + (digitsVal fp : ℚ) / (10 : ℚ) ^ fp.length) *
        cond eneg (((10 : ℚ) ^ emag)⁻¹) ((10 : ℚ) ^ emag) := by
  have h1 : ((10 : ℚ) ^ fp.length) ≠ 0 := pow_ne_zero _ (by norm_num)
  have h2 : ((10 : ℚ) ^ emag) ≠ 0 := pow_ne_zero _ (by norm_num)
  cases neg <;> cases eneg <;>
    · rw [pyFloatDecimal]
      simp only [cond_true, cond_false]
      rw [Rat.divInt_eq_div]
      push_cast
      field_simp

theorem scaled100_eq (q : ℚ) : scaled100 q = q * 100 := by
  rw [scaled100, Rat.divInt_eq_div]
  conv_rhs => rw [← Rat.num_div_den q]
  push_cast
  ring

theorem qadd_eq (a b : ℚ) : qadd a b = a + b := by
  have ha : ((a.den : ℤ) : ℚ) ≠ 0 := by exact_mod_cast a.den_ne_zero
  have hb : ((b.den : ℤ) : ℚ) ≠ 0 := by exact_mod_cast b.den_ne_zero
  rw [qadd, Rat.divInt_eq_div]
  conv_rhs => rw [← Rat.num_div_den a, ← Rat.num_div_den b]
  push_cast at ha hb ⊢
  field_simp

theorem qsub_eq (a b : ℚ) : qsub a b = a - b := by
  have ha : ((a.den : ℤ) : ℚ) ≠ 0 := by exact_mod_cast a.den_ne_zero
  have hb : ((b.den : ℤ) : ℚ) ≠ 0 := by exact_mod_cast b.den_ne_zero
  rw [qsub, Rat.divInt_eq_div]
  conv_rhs => rw [← Rat.num_div_den a, ← Rat.num_div_den b]
  push_cast at ha hb ⊢
  field_simp
  ring

theorem roundHalfEven_intCast (n : ℤ) : roundHalfEven (n : ℚ) = n := by
  rw [roundHalfEven]
  simp [Rat.num_intCast, Rat.den_intCast, Int.floor_intCast]

theorem round2_eq (q : ℚ) :
    round2 q = Rat.divInt (roundHalfEven (q * 100)) 100 := by
  rw [round2, scaled100_eq]

theorem round2_idem (q : ℚ) : round2 (round2 q) = round2 q := by
  have h : (Rat.divInt (roundHalfEven (q * 100)) 100 : ℚ) * 100 =
      ((roundHalfEven (q * 100) : ℤ) : ℚ) := by
    rw [Rat.divInt_eq_div]
    push_cast
    rw [div_mul_cancel₀ _ (by norm_num : (100 : ℚ) ≠ 0)]
  rw [round2_eq, round2_eq, h, roundHalfEven_intCast]

/-! ## Digit-string lemmas -/

theorem digitVal_digitChar (k : ℕ) (h : k ≤ 9) : digitVal (digitChar k) = k := by
  interval_cases k <;> decide

theorem isDigitCh_digitChar (k : ℕ) (h : k ≤ 9) : isDigitCh (digitChar k) = true := by
  interval_cases k <;> decide

theorem isDigitCh_not_space {c : Char} (h : isDigitCh c = true) :
    isSpaceCh c = false := by
  rw [isDigitCh] at h
  rw [isSpaceCh]
  simp only [Bool.and_eq_true, decide_eq_true_eq] at h
  simp only [Bool.or_eq_false_iff, decide_eq_false_iff_not]
  omega

theorem isDigitCh_ne_dash {c : Char} (h : isDigitCh c = true) : c ≠ '-' := by
  intro hc
  subst hc
  exact absurd h (by decide)

theorem isDigitCh_ne_plus {c : Char} (h : isDigitCh c = true) : c ≠ '+' := by
  intro hc
  subst hc
  exact absurd h (by decide)

theorem isDigitCh_ne_dot {c : Char} (h : isDigitCh c = true) : c ≠ '.' := by
  intro hc
  subst hc
  exact absurd h (by decide)

theorem digitsVal_append_single (xs : Str) (c : Char) :
    digitsVal (xs ++ [c]) = digitsVal xs * 10 + digitVal c := by
  rw [digitsVal, digitsVal, List.foldl_append]
  rfl

theorem digitsVal_cons (c : Char) (xs : Str) :
    digitsVal (c :: xs) = digitsVal xs + digitVal c * 10 ^ xs.length := by
  induction xs using List.reverseRecOn with
  | nil => simp [digitsVal]
  | append_singleton ys y ih =>
    rw [← List.cons_append, digitsVal_append_single, digitsVal_append_single, ih]
    simp [List.length_append]
    ring

theorem natToDigitsAux_spec (fuel : ℕ) :
    ∀ n, n < 10 ^ fuel → fuel ≠ 0 →
      (∀ c ∈ natToDigitsAux fuel n, isDigitCh c = true) ∧
      natToDigitsAux fuel n ≠ [] ∧
      digitsVal (natToDigitsAux fuel n) = n := by
  induction fuel with
  | zero => intro n _ hf; exact absurd rfl hf
  | succ fuel ih =>
    intro n hn _
    rw [natToDigitsAux]
    by_cases h10 : n < 10
    · rw [if_pos h10]
      refine ⟨?_, by simp, ?_⟩
      · intro c hc
        rcases List.mem_singleton.mp hc with rfl
        exact isDigitCh_digitChar n (by omega)
      · rw [digitsVal, List.foldl_cons, List.foldl_nil]
        simpa using digitVal_digitChar n (by omega)
    · rw [if_neg h10]
      have hfuel : fuel ≠ 0 := by
        rintro rfl
        simp at hn
        omega
      have hdiv : n / 10 < 10 ^ fuel := by
        rw [Nat.div_lt_iff_lt_mul (by norm_num)]
        calc n < 10 ^ (fuel + 1) := hn
          _ = 10 ^ fuel * 10 := by ring
      obtain ⟨hall, hne, hval⟩ := ih (n / 10) hdiv hfuel
      refine ⟨?_, by simp, ?_⟩
      · intro c hc
        rcases List.mem_append.mp hc with h | h
        · exact hall c h
        · rcases List.mem_singleton.mp h with rfl
          exact isDigitCh_digitChar (n % 10) (by omega)
      · rw [digitsVal_append_single, hval, digitVal_digitChar (n % 10) (by omega)]
        omega

theorem natToDigits_spec (n : ℕ) :
    (∀ c ∈ natToDigits n, isDigitCh c = true) ∧
    natToDigits n ≠ [] ∧
    digitsVal (natToDigits n) = n := by
  have hlt : n < 10 ^ (n + 1) := by
    calc n < 2 ^ n * 1 := by simpa using Nat.lt_two_pow n
      _ ≤ 10 ^ n * 10 := Nat.mul_le_mul (Nat.pow_le_pow_left (by norm_num) n) (by norm_num)
      _ = 10 ^ (n + 1) := by ring
  exact natToDigitsAux_spec (n + 1) n hlt (by omega)

theorem twoDigits_spec (r : ℕ) (h : r < 100) :
    (∀ c ∈ twoDigits r, isDigitCh c = true) ∧
    (twoDigits r).length = 2 ∧
    digitsVal (twoDigits r) = r := by
  have h1 : r / 10 ≤ 9 := by omega
  have h2 : r % 10 ≤ 9 := by omega
  refine ⟨?_, rfl, ?_⟩
  · intro c hc
    simp only [twoDigits, List.mem_cons, List.mem_singleton, List.not_mem_nil,
      or_false] at hc
    rcases hc with rfl | rfl
    · exact isDigitCh_digitChar _ h1
    · exact isDigitCh_digitChar _ h2
  · rw [twoDigits]
    show digitsVal ([digitChar (r / 10)] ++ [digitChar (r % 10)]) = r
    rw [digitsVal_append_single]
    rw [digitVal_digitChar _ h2]
    rw [digitsVal, List.foldl_cons, List.foldl_nil]
    simp [digitVal_digitChar _ h1]
    omega

/-! ## Stripping and scanning lemmas -/

theorem dropWhile_eq_self_of_none {p : Char → Bool} {l : Str}
    (h : ∀ c ∈ l, p c = false) : l.dropWhile p = l := by
  cases l with
  | nil => rfl
  | cons c t =>
    rw [List.dropWhile_cons, h c (List.mem_cons_self c t)]
    simp

theorem pyStrip_eq_self {l : Str} (h : ∀ c ∈ l, isSpaceCh c = false) :
    pyStrip l = l := by
  rw [pyStrip, dropWhile_eq_self_of_none h, dropWhile_eq_self_of_none, List.reverse_reverse]
  intro c hc
  exact h c (List.mem_reverse.mp hc)

theorem takeWhile_all {p : Char → Bool} (l : Str) (h : ∀ c ∈ l, p c = true) :
    l.takeWhile p = l ∧ l.dropWhile p = [] := by
  induction l with
  | nil => exact ⟨rfl, rfl⟩
  | cons c t ih =>
    have ht := ih fun d hd => h d (List.mem_cons_of_mem c hd)
    rw [List.takeWhile_cons, List.dropWhile_cons, h c (List.mem_cons_self c t)]
    simp [ht.1, ht.2]

theorem takeWhile_append_stop {p : Char → Bool} {y : Char} {t : Str}
    (hy : p y = false) (l : Str) (h : ∀ c ∈ l, p c = true) :
    (l ++ y :: t).takeWhile p = l ∧ (l ++ y :: t).dropWhile p = y :: t := by
  induction l with
  | nil =>
    rw [List.nil_append, List.takeWhile_cons, List.dropWhile_cons, hy]
    simp
  | cons c s ih =>
    have hs := ih fun d hd => h d (List.mem_cons_of_mem c hd)
    rw [List.cons_append, List.takeWhile_cons, List.dropWhile_cons,
      h c (List.mem_cons_self c s)]
    simp [hs.1, hs.2]

theorem pySign_of_digit {c : Char} {t : Str} (h : isDigitCh c = true) :
    pySign (c :: t) = (false, c :: t) := by
  rw [pySign, if_neg (isDigitCh_ne_dash h), if_neg (isDigitCh_ne_plus h)]

/-! ## `format2` parses back to the rounded value -/

theorem format2_not_space (q : ℚ) : ∀ c ∈ format2 q, isSpaceCh c = false := by
  intro c hc
  rw [format2] at hc
  rcases List.mem_append.mp hc with h1 | h2
  · rcases List.mem_append.mp h1 with hpre | hnd
    · have hc' : c = '-' := by
        by_cases hn : roundHalfEven (scaled100 q) < 0
        · rw [if_pos hn] at hpre
          simpa using hpre
        · rw [if_neg hn] at hpre
          simp at hpre
      subst hc'
      decide
    · exact isDigitCh_not_space ((natToDigits_spec _).1 c hnd)
  · rcases List.mem_cons.mp h2 with rfl | htd
    · decide
    · exact isDigitCh_not_space
        ((twoDigits_spec _ (Nat.mod_lt _ (by norm_num))).1 c htd)

theorem pyFloat_format2 (q : ℚ) : pyFloat (format2 q) = some (round2 q) := by
  have hstrip : pyStrip (format2 q) = format2 q := pyStrip_eq_self (format2_not_space q)
  rw [pyFloat, hstrip]
  set n := roundHalfEven (scaled100 q) with hn
  set m := n.natAbs with hm
  obtain ⟨hIall, hIne, hIval⟩ := natToDigits_spec (m / 100)
  obtain ⟨hFall, hFlen, hFval⟩ := twoDigits_spec (m % 100) (Nat.mod_lt _ (by norm_num))
  set I := natToDigits (m / 100) with hI
  set F := twoDigits (m % 100) with hF
  have hdot : isDigitCh '.' = false := by decide
  have htake : (I ++ '.' :: F).takeWhile isDigitCh = I :=
    (takeWhile_append_stop hdot I hIall).1
  have hdrop : (I ++ '.' :: F).dropWhile isDigitCh = '.' :: F :=
    (takeWhile_append_stop hdot I hIall).2
  have hFtake : F.takeWhile isDigitCh = F := (takeWhile_all F hFall).1
  have hFdrop : F.dropWhile isDigitCh = [] := (takeWhile_all F hFall).2
  have hIempty : I.isEmpty = false := by
    cases hI2 : I with
    | nil => exact absurd hI2 hIne
    | cons a b => rfl
  have habs : ((m / 100 : ℕ) : ℤ) * 10 ^ 2 + ((m % 100 : ℕ) : ℤ) = (m : ℤ) := by
    push_cast
    omega
  by_cases hneg : n < 0
  · have hval : pyFloatDecimal true I F false 0 = round2 q := by
      simp only [pyFloatDecimal, hIval, hFval, hFlen, cond_true, cond_false,
        pow_zero, mul_one, habs]
      rw [round2, ← hn]
      congr 1
      omega
    have hpre : format2 q = '-' :: (I ++ '.' :: F) := by
      rw [format2, ← hn, ← hm, ← hI, ← hF, if_pos hneg, List.singleton_append,
        List.cons_append]
    rw [hpre, pyFloatCore]
    have hsign : pySign ('-' :: (I ++ '.' :: F)) = (true, I ++ '.' :: F) := by
      rw [pySign, if_pos rfl]
    simp only [hsign, htake, hdrop, hFtake, hFdrop, hIempty, Bool.false_and,
      Bool.false_eq_true, if_false, hval]
  · have hval : pyFloatDecimal false I F false 0 = round2 q := by
      simp only [pyFloatDecimal, hIval, hFval, hFlen, cond_true, cond_false,
        pow_zero, mul_one, habs]
      rw [round2, ← hn]
      congr 1
      omega
    have hpre : format2 q = I ++ '.' :: F := by
      rw [format2, ← hn, ← hm, ← hI, ← hF, if_neg hneg, List.nil_append]
    obtain ⟨a, t, hIcons⟩ : ∃ a t, I = a :: t := by
      cases hI2 : I with
      | nil => exact absurd hI2 hIne
      | cons a b => exact ⟨a, b, rfl⟩
    have hda : isDigitCh a = true := hIall a (hIcons ▸ List.mem_cons_self a t)
    rw [hpre, pyFloatCore]
    have hsign : pySign (I ++ '.' :: F) = (false, I ++ '.' :: F) := by
      rw [hIcons, List.cons_append]
      exact pySign_of_digit hda
    simp only [hsign, htake, hdrop, hFtake, hFdrop, hIempty, Bool.false_and,
      Bool.false_eq_true, if_false, hval]

theorem format2_ne_nil (q : ℚ) : format2 q ≠ [] := by
  rw [format2]
  intro h
  rcases List.append_eq_nil.mp h with ⟨-, h2⟩
  cases h2

/-! ## Date lemmas: `splitDash` against string decomposition -/

theorem splitDash_ne_nil (s : Str) : splitDash s ≠ [] := by
  cases s with
  | nil => simp [splitDash]
  | cons c t =>
    rw [splitDash]
    split
    · simp
    · cases h : splitDash t <;> simp

theorem joinDash_splitDash (s : Str) : joinDash (splitDash s) = s := by
  induction s with
  | nil => rfl
  | cons c t ih =>
    rw [splitDash]
    by_cases hc : c = '-'
    · rw [if_pos hc, hc]
      cases h : splitDash t with
      | nil => exact absurd h (splitDash_ne_nil t)
      | cons p ps =>
        rw [h] at ih
        rw [joinDash, List.nil_append, ih]
    · rw [if_neg hc]
      cases h : splitDash t with
      | nil => exact absurd h (splitDash_ne_nil t)
      | cons p ps =>
        rw [h] at ih
        cases ps with
        | nil =>
          rw [joinDash]
          rw [joinDash] at ih
          rw [ih]
        | cons p2 ps2 =>
          rw [joinDash, List.cons_append]
          rw [joinDash] at ih
          rw [ih]

theorem splitDash_no_dash (d : Str) (h : '-' ∉ d) : splitDash d = [d] := by
  induction d with
  | nil => rfl
  | cons c t ih =>
    rw [splitDash, if_neg (fun hc => h (List.mem_cons.mpr (Or.inl hc.symm)))]
    rw [ih (fun hm => h (List.mem_cons_of_mem c hm))]

theorem splitDash_append (y : Str) (r : Str) (h : '-' ∉ y) :
    splitDash (y ++ '-' :: r) = y :: splitDash r := by
  induction y with
  | nil =>
    rw [List.nil_append, splitDash, if_pos rfl]
  | cons c t ih =>
    rw [List.cons_append, splitDash,
      if_neg (fun hc => h (List.mem_cons.mpr (Or.inl hc.symm))),
      ih (fun hm => h (List.mem_cons_of_mem c hm))]

theorem daysInMonth_le_31 (y m : ℕ) : daysInMonth y m ≤ 31 := by
  rw [daysInMonth]
  split
  · split <;> norm_num
  · split <;> norm_num

theorem no_dash_of_digits {l : Str} (h : ∀ c ∈ l, isDigitCh c = true) : '-' ∉ l := by
  intro hm
  exact absurd (h '-' hm) (by decide)

/-- The characterization of `is_valid_date` used by claims C1 and C2. -/
theorem is_valid_date_iff (s : Str) : is_valid_date s = true ↔ FlexValidDate s := by
  constructor
  · intro h
    rw [is_valid_date] at h
    rcases hsp : splitDash s with _ | ⟨ys, tl⟩
    · rw [hsp] at h
      exact absurd h (by simp)
    rcases tl with _ | ⟨ms, tl2⟩
    · rw [hsp] at h
      exact absurd h (by simp)
    rcases tl2 with _ | ⟨ds, tl3⟩
    · rw [hsp] at h
      exact absurd h (by simp)
    rcases tl3 with _ | ⟨x, tl4⟩
    swap
    · rw [hsp] at h
      exact absurd h (by simp)
    rw [hsp] at h
    simp only [Bool.and_eq_true, decide_eq_true_eq, monthToken, dayToken,
      List.all_eq_true, Bool.or_eq_true] at h
    obtain ⟨⟨⟨⟨⟨hylen, hydig⟩, ⟨hmdig, hmlen⟩, hm1, hm12⟩, ⟨hddig, hdlen⟩, hd1, hd31⟩,
      hy1⟩, hdm⟩ := h
    refine ⟨ys, ms, ds, ?_, hylen, hydig, hy1, hmlen, hmdig, hm1, hm12, hdlen,
      hddig, hd1, hdm⟩
    have hjoin := joinDash_splitDash s
    rw [hsp, joinDash, joinDash, joinDash] at hjoin
    exact hjoin.symm
  · rintro ⟨ys, ms, ds, hs, hylen, hydig, hy1, hmlen, hmdig, hm1, hm12, hdlen, hddig, hd1, hdm⟩
    have hsp : splitDash s = [ys, ms, ds] := by
      rw [hs, splitDash_append ys _ (no_dash_of_digits hydig),
        splitDash_append ms _ (no_dash_of_digits hmdig),
        splitDash_no_dash ds (no_dash_of_digits hddig)]
    rw [is_valid_date, hsp]
    simp only [Bool.and_eq_true, decide_eq_true_eq, monthToken, dayToken,
      List.all_eq_true, Bool.or_eq_true]
    exact ⟨⟨⟨⟨⟨hylen, hydig⟩, ⟨hmdig, hmlen⟩, hm1, hm12⟩, ⟨hddig, hdlen⟩, hd1,
      le_trans hdm (daysInMonth_le_31 _ _)⟩, hy1⟩, hdm⟩

theorem valid_date_not_space {s : Str} (h : is_valid_date s = true) :
    ∀ c ∈ s, isSpaceCh c = false := by
  obtain ⟨ys, ms, ds, hs, -, hydig, -, -, hmdig, -, -, -, hddig, -, -⟩ :=
    (is_valid_date_iff s).mp h
  intro c hc
  rw [hs] at hc
  rcases List.mem_append.mp hc with hy | hrest
  · exact isDigitCh_not_space (hydig c hy)
  rcases List.mem_cons.mp hrest with rfl | hrest2
  · decide
  rcases List.mem_append.mp hrest2 with hm | hrest3
  · exact isDigitCh_not_space (hmdig c hm)
  rcases List.mem_cons.mp hrest3 with rfl | hd
  · decide
  · exact isDigitCh_not_space (hddig c hd)

theorem valid_date_strip {s : Str} (h : is_valid_date s = true) : pyStrip s = s :=
  pyStrip_eq_self (valid_date_not_space h)

theorem valid_date_ne_nil {s : Str} (h : is_valid_date s = true) : s ≠ [] := by
  obtain ⟨ys, ms, ds, hs, -, -, -, -, -, -, -, -, -, -, -⟩ := (is_valid_date_iff s).mp h
  rw [hs]
  simp

theorem isEmpty_false_iff (l : Str) : l.isEmpty = false ↔ l ≠ [] := by
  cases l <;> simp

theorem isEmpty_true_iff (l : Str) : l.isEmpty = true ↔ l = [] := by
  cases l <;> simp

/-! ## Load and save structure lemmas -/

theorem load_rows_eq_filterMap (h : Row) (rows : List Row) :
    load_rows h rows = rows.filterMap (parse_row h) := by
  induction rows with
  | nil => rfl
  | cons r rest ih =>
    rw [load_rows, List.filterMap_cons]
    cases hp : parse_row h r with
    | none => exact ih
    | some e => rw [ih]

theorem load_rows_mem {h : Row} {rows : List Row} {r : Row} {e : Expense}
    (hr : r ∈ rows) (hp : parse_row h r = some e) : e ∈ load_rows h rows := by
  rw [load_rows_eq_filterMap]
  exact List.mem_filterMap.mpr ⟨r, hr, hp⟩

theorem parse_row_complete {h r : Row} {e : Expense}
    (hp : parse_row h r = some e) : is_complete_expense e = true := by
  rw [parse_row] at hp
  split at hp
  · exact absurd hp (by simp)
  rename_i hne
  cases hvd : is_valid_date (pyStrip (colGet h r strDate)) with
  | false =>
    rw [hvd] at hp
    exact absurd hp (by simp)
  | true =>
    rw [hvd] at hp
    simp only [Bool.not_true, Bool.false_eq_true, if_false] at hp
    cases hq : pyFloat (pyStrip (colGet h r strAmount)) with
    | none =>
      rw [hq] at hp
      exact absurd hp (by simp)
    | some q =>
      rw [hq] at hp
      obtain rfl := Option.some_injective _ hp
      simp only [Bool.or_eq_true, not_or, Bool.not_eq_true] at hne
      obtain ⟨⟨⟨h1, h2⟩, h3⟩, h4⟩ := hne
      simp only [is_complete_expense, isEmptySentinel, Bool.and_eq_true,
        Bool.not_eq_true', h1, h2, h4]
      simp

theorem view_loop_state (st : List Expense) (l : List Expense) (n : ℕ) :
    (view_loop st l n).1 = st := by
  induction l generalizing n with
  | nil => rfl
  | cons e rest ih =>
    rw [view_loop]
    split
    · exact ih (n + 1)
    · exact ih n

theorem total_loop_state (st : List Expense) (l : List Expense) (acc : ℚ) :
    (total_loop st l acc).1 = st := by
  induction l generalizing acc with
  | nil => rfl
  | cons e rest ih =>
    rw [total_loop]
    split
    · cases floatOfVal e.amount with
      | none => exact ih acc
      | some v => exact ih (qadd acc v)
    · exact ih acc

theorem total_loop_val (st : List Expense) (l : List Expense) (acc : ℚ) :
    (total_loop st l acc).2 =
      acc + ((l.filter (fun e => is_complete_expense e)).map
        (fun e => (floatOfVal e.amount).getD 0)).sum := by
  induction l generalizing acc with
  | nil => simp [total_loop]
  | cons e rest ih =>
    rw [total_loop]
    by_cases hc : is_complete_expense e = true
    · rw [if_pos hc, List.filter_cons_of_pos hc, List.map_cons, List.sum_cons]
      cases hf : floatOfVal e.amount with
      | none => rw [ih acc]; simp
      | some v => rw [ih (qadd acc v), qadd_eq]; simp; ring
    · rw [if_neg hc, List.filter_cons_of_neg hc, ih acc]

theorem save_loop_state (st : List Expense) (l : List Expense) :
    (save_loop st l).1 = st := by
  induction l with
  | nil => rfl
  | cons e rest ih =>
    rw [save_loop]
    split
    · cases hs : serialize_expense e with
      | none => rfl
      | some row =>
        cases hrec : save_loop st rest with
        | mk s o =>
          cases o with
          | none => exact (congrArg Prod.fst hrec).symm.trans ih
          | some rows => exact (congrArg Prod.fst hrec).symm.trans ih
    · exact ih

theorem save_loop_mem {st : List Expense} {es : List Expense} {rows : List Row}
    {e : Expense} (hs : (save_loop st es).2 = some rows) (he : e ∈ es)
    (hc : is_complete_expense e = true) :
    ∃ r ∈ rows, serialize_expense e = some r := by
  induction es generalizing rows with
  | nil => cases he
  | cons a t ih =>
    rw [save_loop] at hs
    rcases List.mem_cons.mp he with rfl | ht
    · rw [if_pos hc] at hs
      cases hser : serialize_expense e with
      | none => rw [hser] at hs; exact absurd hs (by simp)
      | some r =>
        rw [hser] at hs
        cases hrec : save_loop st t with
        | mk s o =>
          rw [hrec] at hs
          cases o with
          | none => exact absurd hs (by simp)
          | some rs =>
            simp only at hs
            obtain rfl := Option.some_injective _ hs
            exact ⟨r, List.mem_cons_self r rs, rfl⟩
    · by_cases hac : is_complete_expense a = true
      · rw [if_pos hac] at hs
        cases hser : serialize_expense a with
        | none => rw [hser] at hs; exact absurd hs (by simp)
        | some r =>
          rw [hser] at hs
          cases hrec : save_loop st t with
          | mk s o =>
            rw [hrec] at hs
            cases o with
            | none => exact absurd hs (by simp)
            | some rs =>
              simp only at hs
              obtain rfl := Option.some_injective _ hs
              obtain ⟨r2, hr2, hser2⟩ := ih (by rw [hrec]) ht
              exact ⟨r2, List.mem_cons_of_mem r hr2, hser2⟩
      · rw [if_neg hac] at hs
        exact ih hs ht

theorem serialize_expense_str {d c dsc : Str} {a : ℚ} :
    serialize_expense ⟨.str d, .str c, .num a, .str dsc⟩ = some [d, c, format2 a, dsc] := rfl

theorem save_expenses_some {es : List Expense} {file : List Row}
    (h : save_expenses es = some file) :
    ∃ rows, (save_loop es es).2 = some rows ∧ file = CSV_HEADERS :: rows := by
  rw [save_expenses, save_expenses_st] at h
  cases hrec : save_loop es es with
  | mk s o =>
    rw [hrec] at h
    cases o with
    | none => exact absurd h (by simp)
    | some rows =>
      simp only at h
      obtain rfl := Option.some_injective _ h
      exact ⟨rows, rfl, rfl⟩

theorem load_expenses_cons (header : Row) (data : List Row) :
    load_expenses (some (header :: data)) = load_rows header data := rfl

theorem parse_row_serialized {d c dsc : Str} {a : ℚ}
    (hvd : is_valid_date d = true) (hcs : pyStrip c = c) (hcn : c ≠ [])
    (hds : pyStrip dsc = dsc) (hdn : dsc ≠ []) :
    parse_row CSV_HEADERS [d, c, format2 a, dsc] =
      some ⟨.str d, .str c, .num (round2 a), .str dsc⟩ := by
  have h1 : colGet CSV_HEADERS [d, c, format2 a, dsc] strDate = d := rfl
  have h2 : colGet CSV_HEADERS [d, c, format2 a, dsc] strCategory = c := rfl
  have h3 : colGet CSV_HEADERS [d, c, format2 a, dsc] strAmount = format2 a := rfl
  have h4 : colGet CSV_HEADERS [d, c, format2 a, dsc] strDescription = dsc := rfl
  have e1 : d.isEmpty = false := (isEmpty_false_iff d).mpr (valid_date_ne_nil hvd)
  have e2 : c.isEmpty = false := (isEmpty_false_iff c).mpr hcn
  have e3 : (format2 a).isEmpty = false := (isEmpty_false_iff _).mpr (format2_ne_nil a)
  have e4 : dsc.isEmpty = false := (isEmpty_false_iff dsc).mpr hdn
  rw [parse_row, h1, h2, h3, h4, valid_date_strip hvd, hcs, hds,
    pyStrip_eq_self (format2_not_space a)]
  simp only [e1, e2, e3, e4, hvd, Bool.or_false, Bool.false_or, Bool.or_self,
    Bool.not_true, Bool.false_eq_true, if_false, pyFloat_format2, round2_idem]

/-! ## `add_expense` characterization -/

theorem add_expense_added_eq {d c a dsc : Str} {q : ℚ}
    (hq : pyFloat (pyStrip a) = some q) (hqpos : 0 < q)
    (hvd : is_valid_date (pyStrip d) = true)
    (hc : pyStrip c ≠ []) (hdsc : pyStrip dsc ≠ []) :
    add_expense d c a dsc =
      .added ⟨.str (pyStrip d), .str (pyStrip c), .num (round2 q), .str (pyStrip dsc)⟩ := by
  have e2 : (pyStrip c).isEmpty = false := (isEmpty_false_iff _).mpr hc
  have e4 : (pyStrip dsc).isEmpty = false := (isEmpty_false_iff _).mpr hdsc
  have hle : ¬q ≤ 0 := not_le.mpr hqpos
  rw [add_expense]
  simp only [hvd, Bool.not_true, Bool.false_eq_true, if_false, e2, e4, hq, hle]

theorem add_expense_rejected_iff (d c a dsc : Str) :
    add_expense d c a dsc = .rejected ↔
      ¬(is_valid_date (pyStrip d) = true ∧ pyStrip c ≠ [] ∧
        (∃ q, pyFloat (pyStrip a) = some q ∧ 0 < q) ∧ pyStrip dsc ≠ []) := by
  constructor
  · intro h hcond
    obtain ⟨hvd, hc, ⟨q, hq, hqpos⟩, hdsc⟩ := hcond
    rw [add_expense_added_eq hq hqpos hvd hc hdsc] at h
    exact AddResult.noConfusion h
  · intro hn
    cases hvd : is_valid_date (pyStrip d) with
    | false =>
      rw [add_expense, hvd]
      simp
    | true =>
      by_cases hc : pyStrip c = []
      · rw [add_expense, hvd]
        simp [hc]
      · have e2 : (pyStrip c).isEmpty = false := (isEmpty_false_iff _).mpr hc
        cases hq : pyFloat (pyStrip a) with
        | none =>
          rw [add_expense, hvd]
          simp [e2, hq]
        | some q =>
          by_cases hqpos : 0 < q
          · by_cases hdsc : pyStrip dsc = []
            · have hle : ¬q ≤ 0 := not_le.mpr hqpos
              rw [add_expense, hvd]
              simp [e2, hq, hle, hdsc]
            · exact absurd ⟨hvd, hc, ⟨q, hq, hqpos⟩, hdsc⟩ hn
          · have hle : q ≤ 0 := not_lt.mp hqpos
            rw [add_expense, hvd]
            simp [e2, hq, hle]

/-! ## Frame lemmas: the read-only operations return the list unchanged -/

theorem view_expenses_fst (es : List Expense) : (view_expenses es).1 = es := by
  rw [view_expenses]
  split
  · rfl
  · exact view_loop_state es es 0

theorem total_expenses_st_fst (es : List Expense) : (total_expenses_st es).1 = es := by
  rw [total_expenses_st]
  cases htl : total_loop es es 0 with
  | mk s t =>
    have hst := total_loop_state es es 0
    rw [htl] at hst
    exact hst

theorem track_budget_fst (es : List Expense) (b : Option ℚ) (raw : Str) :
    (track_budget es b raw).1 = es := by
  rw [track_budget.eq_def]
  cases b with
  | none =>
    cases set_budget raw with
    | none => rfl
    | some v =>
      cases htl : total_expenses_st es with
      | mk s t =>
        have hst := total_expenses_st_fst es
        rw [htl] at hst
        exact hst
  | some v =>
    cases htl : total_expenses_st es with
    | mk s t =>
      have hst := total_expenses_st_fst es
      rw [htl] at hst
      exact hst

theorem save_expenses_st_fst (es : List Expense) : (save_expenses_st es).1 = es := by
  rw [save_expenses_st]
  cases hrec : save_loop es es with
  | mk s o =>
    have hst := save_loop_state es es
    rw [hrec] at hst
    cases o with
    | none => exact hst
    | some rows => exact hst

/-- The parse_row acceptance condition, spelt out (claim C6). -/
theorem parse_row_accepts_iff (header row : Row) :
    parse_row header row ≠ Option.none ↔
      (pyStrip (colGet header row strDate) ≠ [] ∧
       pyStrip (colGet header row strCategory) ≠ [] ∧
       pyStrip (colGet header row strAmount) ≠ [] ∧
       pyStrip (colGet header row strDescription) ≠ [] ∧
       is_valid_date (pyStrip (colGet header row strDate)) = true ∧
       pyFloat (pyStrip (colGet header row strAmount)) ≠ Option.none) := by
  rw [parse_row]
  by_cases h1 : (List.isEmpty (pyStrip (colGet header row strDate)) ||
      List.isEmpty (pyStrip (colGet header row strCategory)) ||
      List.isEmpty (pyStrip (colGet header row strAmount)) ||
      List.isEmpty (pyStrip (colGet header row strDescription))) = true
  · rw [if_pos h1]
    simp only [Bool.or_eq_true] at h1
    constructor
    · intro hne
      exact absurd rfl hne
    · rintro ⟨hd, hc, ham, hds, -, -⟩
      rcases h1 with ((h | h) | h) | h
      · exact absurd ((isEmpty_true_iff _).mp h) hd
      · exact absurd ((isEmpty_true_iff _).mp h) hc
      · exact absurd ((isEmpty_true_iff _).mp h) ham
      · exact absurd ((isEmpty_true_iff _).mp h) hds
  · rw [if_neg h1]
    simp only [Bool.or_eq_true, not_or, Bool.not_eq_true] at h1
    obtain ⟨⟨⟨e1, e2⟩, e3⟩, e4⟩ := h1
    by_cases hvd : is_valid_date (pyStrip (colGet header row strDate)) = true
    swap
    · have hvf : is_valid_date (pyStrip (colGet header row strDate)) = false := by
        cases hx : is_valid_date (pyStrip (colGet header row strDate)) with
        | false => rfl
        | true => exact absurd hx hvd
      rw [hvf]
      simp
    rw [hvd]
    simp only [Bool.not_true, Bool.false_eq_true, if_false]
    cases hq : pyFloat (pyStrip (colGet header row strAmount)) with
    | none => simp
    | some q =>
      constructor
      · intro _hne
        exact ⟨(isEmpty_false_iff _).mp e1, (isEmpty_false_iff _).mp e2,
          (isEmpty_false_iff _).mp e3, (isEmpty_false_iff _).mp e4, trivial,
          fun hx => Option.noConfusion hx⟩
      · intro _h
        exact fun hx => Option.noConfusion hx

/-! ## Claim theorems -/

/-- Claim C1, counterexample to the claim as stated: `c1CexRecord` is a
complete record with positive amount `5`, but its category `"Food "` has a
trailing space; saving a ledger containing it and loading the file back
yields a single record whose category is the stripped `"Food"`, not the
original — the round trip does not leave `category` unchanged. -/
theorem c1_counterexample :
    is_complete_expense c1CexRecord = true ∧ (0 : ℚ) < 5 ∧
    c1CexRecord.amount = Val.num 5 ∧
    load_expenses (save_expenses [c1CexRecord]) = [c1CexLoaded] ∧
    c1CexLoaded.category ≠ c1CexRecord.category ∧
    c1CexLoaded.date = c1CexRecord.date ∧
    c1CexLoaded.description = c1CexRecord.description := by
  decide

/-- Claim C1 (amended): for every complete record with positive numeric
amount `a` whose date passes `is_valid_date` and whose category and
description are unchanged by whitespace trimming, saving a ledger
containing it and loading the file back yields a record with amount
`round2 a` and date, category, description unchanged. -/
theorem c1_round_trip (es : List Expense) (file : List Row) (e : Expense)
    (d c dsc : Str) (a : ℚ)
    (hmem : e ∈ es) (hsave : save_expenses es = some file)
    (hdate : e.date = .str d) (hcat : e.category = .str c)
    (hamt : e.amount = .num a) (hdesc : e.description = .str dsc)
    (hcomp : is_complete_expense e = true) (hpos : 0 < a)
    (hvd : is_valid_date d = true) (hcs : pyStrip c = c) (hdss : pyStrip dsc = dsc) :
    ∃ e2, e2 ∈ load_expenses (some file) ∧ e2.date = .str d ∧
      e2.category = .str c ∧ e2.amount = .num (round2 a) ∧
      e2.description = .str dsc := by
  obtain ⟨rows, hrows, rfl⟩ := save_expenses_some hsave
  obtain ⟨r, hrmem, hser⟩ := save_loop_mem hrows hmem hcomp
  obtain ⟨f1, f2, f3, f4⟩ := e
  have h1 : f1 = .str d := hdate
  have h2 : f2 = .str c := hcat
  have h3 : f3 = .num a := hamt
  have h4 : f4 = .str dsc := hdesc
  subst h1 h2 h3 h4
  rw [serialize_expense_str] at hser
  obtain rfl := Option.some_injective _ hser
  have hcn : c ≠ [] := by
    intro hnil
    rw [hnil] at hcomp
    simp [is_complete_expense, isEmptySentinel] at hcomp
  have hdn : dsc ≠ [] := by
    intro hnil
    rw [hnil] at hcomp
    simp [is_complete_expense, isEmptySentinel] at hcomp
  refine ⟨⟨.str d, .str c, .num (round2 a), .str dsc⟩, ?_, rfl, rfl, rfl, rfl⟩
  rw [load_expenses_cons]
  exact load_rows_mem hrmem (parse_row_serialized hvd hcs hcn hdss hdn)

/-- Claim C1, witness: the amended round trip at a concrete record with
amount `5.999` (stored and reloaded as `6.00`). -/
theorem c1_round_trip_witness :
    ∃ e2, e2 ∈ load_expenses (some [CSV_HEADERS,
        ["2024-03-01".toList, "Food".toList, "6.00".toList, "Lunch".toList]]) ∧
      e2.date = Val.str "2024-03-01".toList ∧
      e2.category = Val.str "Food".toList ∧
      e2.amount = Val.num (round2 (mkRat 5999 1000)) ∧
      e2.description = Val.str "Lunch".toList :=
  c1_round_trip [c1GoodRecord] _ c1GoodRecord "2024-03-01".toList "Food".toList
    "Lunch".toList (mkRat 5999 1000) (List.mem_singleton.mpr rfl) (by decide)
    rfl rfl rfl rfl (by decide) (by decide) (by decide) (by decide) (by decide)

/-- Claim C2, counterexample to the claim as stated: `strptime` does not
require zero padding, so `is_valid_date` accepts `"2024-2-9"`, which does
not match the strict `YYYY-MM-DD` shape. -/
theorem c2_counterexample :
    is_valid_date c2CexDate = true ∧ strictISODate c2CexDate = false := by
  decide

/-- Claim C2 (amended): `is_valid_date s` is true iff `s` has the form
year-month-day with dashes, where the year is exactly four digits (value at
least 1), the month is one or two digits with value 1..12, and the day is
one or two digits whose value is a real day of that month; in particular
"2024-02-29" is accepted (leap day), "2024-02-30" and "2023-02-29" are
rejected, and the empty string is rejected. -/
theorem c2_valid_date_flex :
    (∀ s : Str, is_valid_date s = true ↔ FlexValidDate s) ∧
    is_valid_date "2024-02-29".toList = true ∧
    is_valid_date "2024-02-30".toList = false ∧
    is_valid_date "2023-02-29".toList = false ∧
    is_valid_date [] = false :=
  ⟨is_valid_date_iff, by decide, by decide, by decide, by decide⟩

/-- Claim C3: `add_expense` rejects exactly when some validation step
fails (invalid date, empty category after stripping, non-numeric or
non-positive amount, empty description after stripping); a rejection
leaves the list unchanged, and full success appends exactly one record
whose amount is the parsed value rounded to 2 decimals.  Concretely,
amount "-5" and "abc" are rejected with no state change, and "5.999" is
accepted and stored as 6.00. -/
theorem c3_add_expense_validation :
    (∀ d c a dsc : Str,
      add_expense d c a dsc = .rejected ↔
        ¬(is_valid_date (pyStrip d) = true ∧ pyStrip c ≠ [] ∧
          (∃ q, pyFloat (pyStrip a) = some q ∧ 0 < q) ∧ pyStrip dsc ≠ [])) ∧
    (∀ d c a dsc es, add_expense d c a dsc = .rejected →
      add_expense_state es d c a dsc = es) ∧
    (∀ d c a dsc es q, pyFloat (pyStrip a) = some q → 0 < q →
      is_valid_date (pyStrip d) = true → pyStrip c ≠ [] → pyStrip dsc ≠ [] →
      add_expense_state es d c a dsc =
        es ++ [⟨.str (pyStrip d), .str (pyStrip c), .num (round2 q),
          .str (pyStrip dsc)⟩]) ∧
    (∀ es, add_expense_state es "2024-01-01".toList "Food".toList
      "-5".toList "x".toList = es) ∧
    (∀ es, add_expense_state es "2024-01-01".toList "Food".toList
      "abc".toList "x".toList = es) ∧
    (∀ es, add_expense_state es "2024-01-01".toList "Food".toList
      "5.999".toList "x".toList =
      es ++ [⟨.str "2024-01-01".toList, .str "Food".toList, .num 6,
        .str "x".toList⟩]) := by
  refine ⟨add_expense_rejected_iff, ?_, ?_, ?_, ?_, ?_⟩
  · intro d c a dsc es h
    rw [add_expense_state, h]
  · intro d c a dsc es q hq hqpos hvd hc hdsc
    rw [add_expense_state, add_expense_added_eq hq hqpos hvd hc hdsc]
  · intro es
    rw [add_expense_state,
      show add_expense "2024-01-01".toList "Food".toList "-5".toList "x".toList =
        AddResult.rejected from by decide]
  · intro es
    rw [add_expense_state,
      show add_expense "2024-01-01".toList "Food".toList "abc".toList "x".toList =
        AddResult.rejected from by decide]
  · intro es
    rw [add_expense_state,
      show add_expense "2024-01-01".toList "Food".toList "5.999".toList "x".toList =
        AddResult.added ⟨.str "2024-01-01".toList, .str "Food".toList, .num 6,
          .str "x".toList⟩ from by decide]

/-- Claim C3, witness: the success branch applied to a concrete input with
surrounding whitespace in the amount. -/
theorem c3_witness :
    add_expense_state [] "2024-01-01".toList "Food".toList " 5.999 ".toList
      "x".toList =
      [⟨Val.str "2024-01-01".toList, Val.str "Food".toList,
        Val.num (round2 (mkRat 5999 1000)), Val.str "x".toList⟩] :=
  (c3_add_expense_validation.2.2.1 "2024-01-01".toList "Food".toList
    " 5.999 ".toList "x".toList [] (mkRat 5999 1000) (by decide) (by decide)
    (by decide) (by decide) (by decide)).trans (by decide)

/-- Claim C4: `total_expenses` sums the numeric coercion of `amount` over
exactly the complete records (a record whose coercion fails contributes 0),
rounds the result to 2 decimals, and returns 0.00 on the empty list. -/
theorem c4_total_expenses :
    (∀ es, total_expenses es =
      round2 (((es.filter (fun e => is_complete_expense e)).map
        (fun e => (floatOfVal e.amount).getD 0)).sum)) ∧
    total_expenses [] = 0 := by
  have hbase : ∀ es, total_expenses es = round2 (total_loop es es 0).2 := by
    intro es
    rw [total_expenses, total_expenses_st]
  constructor
  · intro es
    rw [hbase es, total_loop_val es es 0, zero_add]
  · decide

/-- Claim C5: the budget comparison is inclusive at equality — `spent ≤
budget` yields the within-budget verdict with remaining `budget − spent`
rounded to 2 decimals (in particular at `(100.00, 100.00)` the remaining
is 0.00), and `spent > budget` yields the exceeded verdict (in particular
at `(100.01, 100.00)`). -/
theorem c5_budget_inclusive :
    (∀ spent budget : ℚ, spent ≤ budget →
      budget_verdict spent budget = .within (round2 (budget - spent))) ∧
    (∀ spent budget : ℚ, budget < spent →
      budget_verdict spent budget = .exceeded) ∧
    budget_verdict 100 100 = .within 0 ∧
    budget_verdict (mkRat 10001 100) 100 = .exceeded := by
  refine ⟨?_, ?_, by decide, by decide⟩
  · intro s b h
    rw [budget_verdict, if_neg (not_lt.mpr h), qsub_eq]
  · intro s b h
    rw [budget_verdict, if_pos h]

/-- Claim C5, witness: the inclusive branch applied at spent = budget =
100. -/
theorem c5_witness :
    budget_verdict 100 100 = Verdict.within (round2 (100 - 100)) :=
  c5_budget_inclusive.1 100 100 (le_refl 100)

/-- Claim C6: a data row is accepted by `load_expenses` iff all four
columns are non-empty after trimming, the date passes `is_valid_date`, and
the amount parses as a number (positivity is not re-checked: the file with
the `-4.00` row loads that record); rejected rows are silently discarded
and parsing continues, so a file with one well-formed row and one row
missing its category yields exactly one record. -/
theorem c6_load_row_acceptance :
    (∀ header rows, load_expenses (some (header :: rows)) =
      rows.filterMap (parse_row header)) ∧
    (∀ header row, parse_row header row ≠ Option.none ↔
      (pyStrip (colGet header row strDate) ≠ [] ∧
       pyStrip (colGet header row strCategory) ≠ [] ∧
       pyStrip (colGet header row strAmount) ≠ [] ∧
       pyStrip (colGet header row strDescription) ≠ [] ∧
       is_valid_date (pyStrip (colGet header row strDate)) = true ∧
       pyFloat (pyStrip (colGet header row strAmount)) ≠ Option.none)) ∧
    load_expenses (some [CSV_HEADERS, rowGood, rowNoCategory]) = [rowGoodRecord] ∧
    load_expenses (some [CSV_HEADERS, rowNegative]) =
      [⟨Val.str "2024-03-03".toList, Val.str "Misc".toList, Val.num (-4),
        Val.str "Refund".toList⟩] := by
  refine ⟨?_, parse_row_accepts_iff, by decide, by decide⟩
  intro header rows
  rw [load_expenses_cons, load_rows_eq_filterMap]

/-- Claim C7: loading a nonexistent file returns the empty list without
raising and without a warning; a lower-level read failure after `k` rows is
caught, surfaced as a warning, and the records accumulated before the
failure are returned; a read with no failure returns everything and no
warning. -/
theorem c7_load_error_handling :
    (∀ fa, load_expenses_io Option.none fa = ([], false)) ∧
    (∀ header data k, k < (data : List Row).length →
      load_expenses_io (some (header :: data)) (some k) =
        (load_rows header (data.take k), true)) ∧
    (∀ header data, load_expenses_io (some (header :: data)) Option.none =
      (load_rows header data, false)) := by
  refine ⟨?_, ?_, ?_⟩
  · intro fa
    rfl
  · intro header data k hk
    simp only [load_expenses_io]
    rw [if_pos hk]
  · intro header data
    rfl

/-- Claim C7, witness: a failure injected before any data row of a
two-row file loads nothing and warns. -/
theorem c7_witness :
    load_expenses_io (some [CSV_HEADERS, rowGood, rowNoCategory]) (some 0) =
      ([], true) :=
  (c7_load_error_handling.2.1 CSV_HEADERS [rowGood, rowNoCategory] 0
    (by decide)).trans (by decide)

/-- Claim C8, counterexample to the claim as stated: when the destination
cannot be opened, `save_expenses` does not catch the `IOError` and print a
message (the outcome the specification describes, `handledIOError`); the
exception propagates out of the function. -/
theorem c8_counterexample :
    save_expenses_io [] false = SaveOutcome.raisedIOError ∧
    SaveOutcome.raisedIOError ≠ SaveOutcome.handledIOError := by
  decide

/-- Claim C8 (amended): when the destination cannot be opened for writing,
`save_expenses` raises `IOError` and the exception propagates to the
caller uncaught — it is never silently swallowed, but neither is it
printed and handled; `save_expenses` has no `try`/`except`, and the menu
loop has none either, so the process crashes. -/
theorem c8_save_open_failure :
    ∀ es, save_expenses_io es false = SaveOutcome.raisedIOError := by
  intro es
  rfl

/-- Claim C9: every record returned by `load_expenses` is complete, and
every record appended by a successful `add_expense` is complete; a ledger
built only through these operations contains only complete records. -/
theorem c9_complete_invariant :
    (∀ file e, e ∈ load_expenses file → is_complete_expense e = true) ∧
    (∀ d c a dsc e, add_expense d c a dsc = .added e →
      is_complete_expense e = true) := by
  constructor
  · intro file e he
    cases file with
    | none => exact absurd he (List.not_mem_nil e)
    | some rows =>
      cases rows with
      | nil => exact absurd he (List.not_mem_nil e)
      | cons header data =>
        rw [load_expenses_cons, load_rows_eq_filterMap] at he
        obtain ⟨r, -, hp⟩ := List.mem_filterMap.mp he
        exact parse_row_complete hp
  · intro d c a dsc e hadd
    by_cases hcond : is_valid_date (pyStrip d) = true ∧ pyStrip c ≠ [] ∧
      (∃ q, pyFloat (pyStrip a) = some q ∧ 0 < q) ∧ pyStrip dsc ≠ []
    · obtain ⟨hvd, hc, ⟨q, hq, hqpos⟩, hdsc⟩ := hcond
      rw [add_expense_added_eq hq hqpos hvd hc hdsc] at hadd
      injection hadd with h
      subst h
      simp [is_complete_expense, isEmptySentinel,
        (isEmpty_false_iff _).mpr (valid_date_ne_nil hvd),
        (isEmpty_false_iff _).mpr hc, (isEmpty_false_iff _).mpr hdsc]
    · rw [(add_expense_rejected_iff d c a dsc).mpr hcond] at hadd
      exact AddResult.noConfusion hadd

/-- Claim C9, witness: the record loaded from a concrete well-formed file
is complete. -/
theorem c9_witness : is_complete_expense rowGoodRecord = true :=
  c9_complete_invariant.1 (some [CSV_HEADERS, rowGood]) rowGoodRecord (by decide)

/-- Claim C10: `view_expenses`, `total_expenses`, `track_budget` and
`save_expenses` leave the expense list unchanged — the list value after
each call equals the list before it. -/
theorem c10_read_only_frame :
    ∀ es : List Expense, (view_expenses es).1 = es ∧
      (total_expenses_st es).1 = es ∧
      (∀ b raw, (track_budget es b raw).1 = es) ∧
      (save_expenses_st es).1 = es :=
  fun es => ⟨view_expenses_fst es, total_expenses_st_fst es,
    fun b raw => track_budget_fst es b raw, save_expenses_st_fst es⟩

end ExpenseTracker
